import Mathlib

/-!
Verification of the client-side encryption utilities of nillion-gallery.

The two modules under verification are `src/utils/encryption.ts`
(`generateEncryptionKey`, `encryptImage`, `decryptImage`) and the file
encryption utility (`hexStringToBuffer`, `base64ToArrayBuffer`,
`arrayBufferToBase64`, `encryptData`, `decryptData`).

Embedding conventions:
* JavaScript strings are modelled as `List Char`.
* Byte buffers (`Uint8Array` / `ArrayBuffer`) are modelled as `List Nat`
  with each element `< 256` where it matters.
* The asynchronous Web Crypto AEAD primitive (`crypto.subtle.encrypt` /
  `crypto.subtle.decrypt` for AES-GCM) is external to the repository; the
  wrapper functions are therefore parametrised by the primitive
  (`aeadEnc` / `aeadDec`), and the properties the spec ascribes to AES-GCM
  appear as hypotheses.  A concrete executable stand-in (`specAEADEnc` /
  `specAEADDec`) modelled from the spec is provided for witnesses.
* Entropy draws (`crypto.getRandomValues`) are passed as explicit
  arguments (the 12-byte `iv`, the 32-byte key entropy).
* JavaScript exceptions are modelled with `Except JsError`; the
  constructors correspond to the individual `throw` sites of the source,
  and the mapping to the spec's error taxonomy is `isCryptoError`.
-/

/-- The data-URL marker `"base64,"` that both modules split on. -/
def marker : List Char := "base64,".data

/-- First-occurrence splitter: `splitFirst sep s = some (before, after)`
where `before` is the text before the first occurrence of `sep` in `s` and
`after` the text after it; `none` when `sep` does not occur.  This models
the substring search underlying both `String.prototype.includes` and
`String.prototype.split` in the source. -/
def splitFirst (sep : List Char) : List Char → Option (List Char × List Char)
  | [] => none
  | c :: rest =>
    if sep.isPrefixOf (c :: rest) then some ([], (c :: rest).drop sep.length)
    else
      match splitFirst sep rest with
      | some (b, a) => some (c :: b, a)
      | none => none

/-- Parts `[0]` and `[1]` of `s.split("base64,")` when the marker occurs
(`none` otherwise): part 0 is the text before the first marker, part 1 the
text between the first and second marker (or everything after the first
marker when it occurs only once).  JavaScript `split` produces the full
list of parts; the source only ever destructures the first two. -/
def jsSplit01 (s : List Char) : Option (List Char × List Char) :=
  match splitFirst marker s with
  | none => none
  | some (p, rest) =>
    match splitFirst marker rest with
    | none => some (p, rest)
    | some (q, _) => some (p, q)

/-- The inline data-URL split shared by `encryptData` (part_000 lines
243-247), `encryptImage` (encryption.ts lines 16-21) and `decryptImage`
(encryption.ts lines 75-80): if the input contains `"base64,"` the result
is `(parts[0] + "base64,", parts[1])`, otherwise `("", input)`. -/
def splitDataUrl (s : List Char) : List Char × List Char :=
  match jsSplit01 s with
  | some (p, pl) => (p ++ marker, pl)
  | none => ([], s)

/-- The split used by `decryptData` (part_000 lines 335-344): identical to
`splitDataUrl` except that a marker-less input gets the synthesized
default prefix `"data:application/octet-stream;base64,"`. -/
def decryptSplit (s : List Char) : List Char × List Char :=
  match jsSplit01 s with
  | some (p, pl) => (p ++ marker, pl)
  | none => ("data:application/octet-stream;base64,".data, s)

/-- Hex digit test for the character class `[\da-f]` with the `i` flag
(code-point ranges 0-9, a-f, A-F). -/
def isHexDigit (c : Char) : Bool :=
  (48 ≤ c.toNat && c.toNat ≤ 57) || (97 ≤ c.toNat && c.toNat ≤ 102) ||
    (65 ≤ c.toNat && c.toNat ≤ 70)

/-- Numeric value of a hex digit (0 for non-digits, unused there). -/
def hexVal (c : Char) : Nat :=
  if 48 ≤ c.toNat && c.toNat ≤ 57 then c.toNat - 48
  else if 97 ≤ c.toNat && c.toNat ≤ 102 then c.toNat - 87
  else if 65 ≤ c.toNat && c.toNat ≤ 70 then c.toNat - 55
  else 0

/-- Global regex scan `hexString.match(/[\da-f]{2}/gi)`: at each position
try to match two consecutive hex digits; on success consume both, on
failure advance one character.  Non-hex characters and odd tails are
silently skipped. -/
def hexPairs : List Char → List (Char × Char)
  | [] => []
  | [_] => []
  | c1 :: c2 :: rest =>
    if isHexDigit c1 && isHexDigit c2 then (c1, c2) :: hexPairs rest
    else hexPairs (c2 :: rest)

/-- `hexStringToBuffer` from part_000 lines 85-89: pairwise regex match
followed by `parseInt(pair, 16)`. -/
def hexStringToBuffer (hexString : List Char) : List Nat :=
  (hexPairs hexString).map fun p => hexVal p.1 * 16 + hexVal p.2

/-- The base64 alphabet in index order. -/
def b64Alphabet : List Char :=
  "ABCDEFGHIJKLMNOPQRSTUVWXYZabcdefghijklmnopqrstuvwxyz0123456789+/".data

/-- Character of a 6-bit group. -/
def b64Char (n : Nat) : Char := b64Alphabet.getD n 'A'

/-- Index of a base64 character (`none` for characters outside the
alphabet, including `=`). -/
def b64Index (c : Char) : Option Nat := b64Alphabet.findIdx? (· = c)

/-- Base64 encoding of a byte list, as performed by `btoa` on the binary
string assembled byte-by-byte in `arrayBufferToBase64` (part_000 lines
128-135) and inline in encryption.ts lines 50-55. -/
def b64EncodeChunks : List Nat → List Char
  | [] => []
  | [b1] => [b64Char (b1 / 4), b64Char (b1 % 4 * 16), '=', '=']
  | [b1, b2] =>
    [b64Char (b1 / 4), b64Char (b1 % 4 * 16 + b2 / 16), b64Char (b2 % 16 * 4), '=']
  | b1 :: b2 :: b3 :: rest =>
    b64Char (b1 / 4) :: b64Char (b1 % 4 * 16 + b2 / 16) ::
      b64Char (b2 % 16 * 4 + b3 / 64) :: b64Char (b3 % 64) :: b64EncodeChunks rest

/-- Decode a run of base64 characters (padding already stripped) in groups
of four, with a final group of two or three characters; any character
outside the alphabet fails, as does a trailing single character. -/
def b64DecodeChunks : List Char → Option (List Nat)
  | [] => some []
  | [_] => none
  | [c1, c2] => do
    let i1 ← b64Index c1
    let i2 ← b64Index c2
    some [i1 * 4 + i2 / 16]
  | [c1, c2, c3] => do
    let i1 ← b64Index c1
    let i2 ← b64Index c2
    let i3 ← b64Index c3
    some [i1 * 4 + i2 / 16, i2 % 16 * 16 + i3 / 4]
  | c1 :: c2 :: c3 :: c4 :: rest => do
    let i1 ← b64Index c1
    let i2 ← b64Index c2
    let i3 ← b64Index c3
    let i4 ← b64Index c4
    let tl ← b64DecodeChunks rest
    some ((i1 * 4 + i2 / 16) :: (i2 % 16 * 16 + i3 / 4) :: (i3 % 4 * 64 + i4) :: tl)

/-- Remove up to two trailing `=` characters. -/
def stripEq (cs : List Char) : List Char :=
  if cs.getLast? = some '=' then
    let cs1 := cs.dropLast
    if cs1.getLast? = some '=' then cs1.dropLast else cs1
  else cs

/-- ASCII whitespace as removed by the forgiving-base64 decode of `atob`
(tab, line feed, form feed, carriage return, space). -/
def isAsciiWS (c : Char) : Bool :=
  c.toNat = 9 || c.toNat = 10 || c.toNat = 12 || c.toNat = 13 || c.toNat = 32

/-- Model of `atob`: the HTML forgiving-base64 decode.  ASCII whitespace
is removed; when the remaining length is a multiple of four, up to two
trailing `=` are stripped; a remaining length of 1 mod 4 or any character
outside the alphabet fails (`InvalidCharacterError` in the browser);
leftover bits of a final partial group are discarded. -/
def atobModel (s : List Char) : Option (List Nat) :=
  let cs := s.filter fun c => !isAsciiWS c
  let cs2 := if cs.length % 4 = 0 then stripEq cs else cs
  if cs2.length % 4 = 1 then none else b64DecodeChunks cs2

/-- Whitespace for JavaScript `String.prototype.trim`: ASCII whitespace,
the vertical tab, the line separators U+2028/U+2029, the BOM, and every
Unicode Space_Separator code point (NBSP U+00A0, U+1680, U+2000-U+200A,
U+202F, U+205F, U+3000). -/
def isJsWS (c : Char) : Bool :=
  isAsciiWS c || c.toNat = 11 || c.toNat = 160 || c.toNat = 5760 ||
    (8192 ≤ c.toNat && c.toNat ≤ 8202) || c.toNat = 8232 ||
    c.toNat = 8233 || c.toNat = 8239 || c.toNat = 8287 ||
    c.toNat = 12288 || c.toNat = 65279

/-- `base64ToArrayBuffer` from part_000 lines 103-123: an empty input is
caught by the guard and yields a zero-length buffer *without* an error
(the source logs and returns `new ArrayBuffer(0)`); otherwise any
data-URL prefix is stripped (`split("base64,")[1]`) and the remainder is
fed to `atob`, whose failure is re-thrown as `"Invalid base64 encoding"`. -/
def base64ToArrayBuffer (base64 : List Char) : Option (List Nat) :=
  if base64 = [] then some []
  else
    let base64String :=
      match jsSplit01 base64 with
      | some (_, pl) => pl
      | none => base64
    atobModel base64String

/-- The individual failure sites of the two modules. -/
inductive JsError where
  | inputEmpty
  | blankPayload
  | invalidBase64
  | keyImport
  | tooShort
  | authFail
  deriving DecidableEq, Repr

/-- The spec's error taxonomy (§7): `CryptoError` covers a key rejected
at import, a frame shorter than one nonce, and authentication failure;
`inputEmpty`/`blankPayload` are `InputError` and `invalidBase64` is
`FormatError`. -/
def isCryptoError : JsError → Bool
  | .keyImport | .tooShort | .authFail => true
  | _ => false

deriving instance DecidableEq for Except

/-- Modelled from the spec: `crypto.subtle.importKey("raw", keyData,
{name: "AES-GCM"}, ...)` is a Web Crypto builtin, not repository code;
per the spec it "fails with CryptoError if the key is not exactly 32
bytes after hex decode". -/
def importKeyOk (keyData : List Nat) : Bool := keyData.length = 32

/-- `encryptData` from part_000 lines 238-278, with the AEAD primitive as
the parameter `aeadEnc` (key, iv, plaintext bytes ↦ ciphertext‖tag) and
the 12-byte entropy draw for the IV as the explicit argument `iv`.  The
caller-supplied key of `options.key` is the argument `key` (the
`generateEncryptionKey` fallback is modelled separately).  Order of
effects follows the source: split, hex-decode key, import key, base64
decode, encrypt, frame, re-attach the prefix. -/
def encryptData (aeadEnc : List Nat → List Nat → List Nat → List Nat)
    (data key : List Char) (iv : List Nat) : Except JsError (List Char) :=
  let p := splitDataUrl data
  let keyData := hexStringToBuffer key
  if importKeyOk keyData then
    match base64ToArrayBuffer p.2 with
    | some dataBuffer =>
      .ok (p.1 ++ b64EncodeChunks (iv ++ aeadEnc keyData iv dataBuffer))
    | none => .error .invalidBase64
  else .error .keyImport

/-- `decryptData` from part_000 lines 328-385, with the AEAD primitive as
the parameter `aeadDec` (key, iv, ciphertext‖tag ↦ plaintext bytes or
failure).  Order of effects follows the source: empty-input check, split
(with synthesized default prefix), blank-payload check, hex-decode key,
key import, base64 decode, minimum-length check, slice nonce, decrypt,
re-encode, re-attach prefix.  The `!base64Data || trim() === ""` test is
modelled as "every character is whitespace". -/
def decryptData (aeadDec : List Nat → List Nat → List Nat → Option (List Nat))
    (encryptedData key : List Char) : Except JsError (List Char) :=
  if encryptedData = [] then .error .inputEmpty
  else
    let p := decryptSplit encryptedData
    if p.2.all isJsWS then .error .blankPayload
    else
      let keyData := hexStringToBuffer key
      if importKeyOk keyData then
        match base64ToArrayBuffer p.2 with
        | some encryptedArray =>
          if encryptedArray.length ≤ 12 then .error .tooShort
          else
            match aeadDec keyData (encryptedArray.take 12) (encryptedArray.drop 12) with
            | some pt => .ok (p.1 ++ b64EncodeChunks pt)
            | none => .error .authFail
        | none => .error .invalidBase64
      else .error .keyImport

/-- Line-terminator test: the only characters `.` does not match in the
regex `/.{1,2}/g`. -/
def notLineTerm (c : Char) : Bool :=
  !(c.toNat = 10 || c.toNat = 13 || c.toNat = 8232 || c.toNat = 8233)

/-- Global regex scan `key.match(/.{1,2}/g)` of encryption.ts lines 24 and
88: greedily match two characters, falling back to one; a line terminator
never matches and is skipped. -/
def chunks12 : List Char → List (List Char)
  | [] => []
  | [c1] => if notLineTerm c1 then [[c1]] else []
  | c1 :: c2 :: rest =>
    if notLineTerm c1 then
      if notLineTerm c2 then [c1, c2] :: chunks12 rest
      else [c1] :: chunks12 rest
    else chunks12 (c2 :: rest)

/-- Maximal leading run of hex digits. -/
def hexDigitsPre : List Char → List Char
  | [] => []
  | c :: rest => if isHexDigit c then c :: hexDigitsPre rest else []

/-- Digits-and-prefix part of `Number.parseInt(s, 16)`: an optional
`0x`/`0X` prefix, then the maximal run of hex digits; `none` (NaN) when
that run is empty. -/
def parseIntCore (cs : List Char) : Option Nat :=
  let cs2 :=
    match cs with
    | '0' :: x :: rest => if x = 'x' || x = 'X' then rest else cs
    | _ => cs
  match hexDigitsPre cs2 with
  | [] => none
  | ds => some (ds.foldl (fun a c => a * 16 + hexVal c) 0)

/-- Model of `Number.parseInt(s, 16)`: strip leading whitespace, read an
optional sign, then `parseIntCore`; `none` models NaN. -/
def jsParseIntHex (s : List Char) : Option Int :=
  match s.dropWhile isJsWS with
  | '-' :: rest => (parseIntCore rest).map fun n => -(n : Int)
  | '+' :: rest => (parseIntCore rest).map fun n => (n : Int)
  | cs => (parseIntCore cs).map fun n => (n : Int)

/-- Storing a parsed value into a `Uint8Array` element: NaN becomes 0,
other values are reduced mod 2^8. -/
def toUint8 (v : Option Int) : Nat :=
  match v with
  | none => 0
  | some i => (i % 256).toNat

/-- The key parse of encryption.ts lines 24 and 88:
`new Uint8Array((key.match(/.{1,2}/g) || []).map(b => Number.parseInt(b, 16)))`. -/
def imageKeyParse (key : List Char) : List Nat :=
  (chunks12 key).map fun cs => toUint8 (jsParseIntHex cs)

/-- `encryptImage` from encryption.ts lines 11-63.  Identical in structure
to `encryptData` except for the key parse and the direct use of `atob`
(no `base64ToArrayBuffer` wrapper). -/
def encryptImage (aeadEnc : List Nat → List Nat → List Nat → List Nat)
    (imageData key : List Char) (iv : List Nat) : Except JsError (List Char) :=
  let p := splitDataUrl imageData
  let keyData := imageKeyParse key
  if importKeyOk keyData then
    match atobModel p.2 with
    | some bytes => .ok (p.1 ++ b64EncodeChunks (iv ++ aeadEnc keyData iv bytes))
    | none => .error .invalidBase64
  else .error .keyImport

/-- `decryptImage` from encryption.ts lines 65-128.  Identical in
structure to `decryptData` except that a marker-less input keeps an empty
prefix (no synthesis), the key parse differs, and `atob` is called
directly. -/
def decryptImage (aeadDec : List Nat → List Nat → List Nat → Option (List Nat))
    (encryptedData key : List Char) : Except JsError (List Char) :=
  if encryptedData = [] then .error .inputEmpty
  else
    let p := splitDataUrl encryptedData
    if p.2.all isJsWS then .error .blankPayload
    else
      let keyData := imageKeyParse key
      if importKeyOk keyData then
        match atobModel p.2 with
        | some bytes =>
          if bytes.length ≤ 12 then .error .tooShort
          else
            match aeadDec keyData (bytes.take 12) (bytes.drop 12) with
            | some pt => .ok (p.1 ++ b64EncodeChunks pt)
            | none => .error .authFail
        | none => .error .invalidBase64
      else .error .keyImport

/-- Hex character of a 4-bit value. -/
def hexChar (n : Nat) : Char := "0123456789abcdef".data.getD n '0'

/-- `bufferToHexString` from part_000 lines 94-98 (also inline in
encryption.ts lines 6-8): `toString(16).padStart(2, "0")` per byte. -/
def bufferToHexString (bs : List Nat) : List Char :=
  (bs.map fun b => [hexChar (b / 16), hexChar (b % 16)]).flatten

/-- `generateEncryptionKey` from part_000 lines 175-180 (identical to
encryption.ts lines 2-9), with the 32-byte entropy draw passed
explicitly. -/
def generateEncryptionKey (entropy : List Nat) : List Char :=
  bufferToHexString entropy

/-- Modelled from the spec: a concrete executable stand-in for the
AES-GCM primitive of the Web Crypto API (absent from the repository),
faithful to the contract stated in the spec — a 96-bit nonce, a keystream
cipher over the payload, and a 16-byte authentication tag over key, nonce
and ciphertext appended to the ciphertext.  Used to instantiate the
parametric theorems in witnesses. -/
def specKS (key iv : List Nat) (i : Nat) : Nat :=
  (key.getD (i % 32) 0 + iv.getD (i % 12) 0 + i) % 256

/-- Modelled from the spec: the 128-bit authentication tag over key,
nonce and ciphertext. -/
def specTag (key iv ct : List Nat) : List Nat :=
  (List.range 16).map fun j =>
    (key ++ iv ++ ct).foldl (fun a b => (a * 31 + b + 1) % 251) j

/-- Modelled from the spec: AEAD encryption, ciphertext with the tag
appended. -/
def specAEADEnc (key iv pt : List Nat) : List Nat :=
  let ct := pt.mapIdx fun i b => (b + specKS key iv i) % 256
  ct ++ specTag key iv ct

/-- Modelled from the spec: AEAD decryption; verifies the tag and inverts
the keystream, failing on any mismatch. -/
def specAEADDec (key iv ctTag : List Nat) : Option (List Nat) :=
  if ctTag.length < 16 then none
  else
    let ct := ctTag.take (ctTag.length - 16)
    let tag := ctTag.drop (ctTag.length - 16)
    if tag = specTag key iv ct then
      some (ct.mapIdx fun i b => (b + 256 - specKS key iv i) % 256)
    else none

/-- Flip bit `i` (bit `i % 8` of byte `i / 8`) of a byte list. -/
def flipBit (i : Nat) (bs : List Nat) : List Nat :=
  bs.set (i / 8) (bs.getD (i / 8) 0 ^^^ 2 ^ (i % 8))

/-- A concrete 64-character lowercase-hex key used by the witnesses;
`hexStringToBuffer` maps it to 32 bytes. -/
def testKey : List Char :=
  "abababababababababababababababababababababababababababababababab".data

/-- A concrete 12-byte entropy draw used by the witnesses. -/
def testIV : List Nat := [0, 1, 2, 3, 4, 5, 6, 7, 8, 9, 10, 11]

/-- A second concrete 64-character lowercase-hex key for wrong-key
witnesses. -/
def testKey2 : List Char :=
  "0123456789abcdef0123456789abcdef0123456789abcdef0123456789abcdef".data

/-- A concrete valid 31-byte frame: `testIV` followed by the model-AEAD
encryption of the bytes `[65, 66, 67]` under `testKey`. -/
def testFrame : List Nat :=
  [0, 1, 2, 3, 4, 5, 6, 7, 8, 9, 10, 11, 236, 239, 242, 215, 106, 248, 139,
   30, 172, 63, 205, 96, 238, 129, 20, 162, 53, 195, 86]

/-- Observer extracting the nonce from an encryption output: the first 12
bytes of the base64-decoded payload, mirroring the slicing that
`decryptData` performs on a blob. -/
def nonceOf (s : List Char) : Option (List Nat) :=
  (base64ToArrayBuffer (decryptSplit s).2).map (List.take 12)

/-- A second concrete 12-byte entropy draw, differing from `testIV`. -/
def testIV2 : List Nat := [99, 1, 2, 3, 4, 5, 6, 7, 8, 9, 10, 11]

/-- Lowercase hex digit (the code points `generateEncryptionKey` emits). -/
def isLowerHexDigit (c : Char) : Bool :=
  (48 ≤ c.toNat && c.toNat ≤ 57) || (97 ≤ c.toNat && c.toNat ≤ 102)

/-! ### Lemmas about the JavaScript split semantics -/

theorem splitFirst_nil (sep : List Char) : splitFirst sep [] = none := rfl

theorem splitFirst_cons_none {sep : List Char} {c : Char} {s : List Char}
    (h : splitFirst sep (c :: s) = none) :
    ¬ sep <+: (c :: s) ∧ splitFirst sep s = none := by
  rw [splitFirst] at h
  by_cases hp : sep.isPrefixOf (c :: s)
  · rw [if_pos hp] at h
    exact absurd h (by simp)
  · rw [if_neg hp] at h
    refine ⟨by simpa using hp, ?_⟩
    cases hs : splitFirst sep s with
    | none => rfl
    | some pa =>
      obtain ⟨b, a⟩ := pa
      rw [hs] at h
      exact absurd h (by simp)

theorem splitFirst_eq_some {sep : List Char} :
    ∀ {s b a : List Char}, splitFirst sep s = some (b, a) →
      s = b ++ sep ++ a ∧ splitFirst sep b = none := by
  intro s
  induction s with
  | nil => intro b a h; exact absurd h (by simp [splitFirst])
  | cons c rest ih =>
    intro b a h
    rw [splitFirst] at h
    by_cases hp : sep.isPrefixOf (c :: rest)
    · rw [if_pos hp] at h
      have hb : b = [] ∧ (c :: rest).drop sep.length = a := by
        have := h
        simp only [Option.some.injEq, Prod.mk.injEq] at this
        exact ⟨this.1.symm, this.2⟩
      obtain ⟨rfl, ha⟩ := hb
      obtain ⟨t, ht⟩ := (List.isPrefixOf_iff_prefix).mp hp
      subst ha
      constructor
      · rw [← ht, List.nil_append, List.drop_left]
      · rfl
    · rw [if_neg hp] at h
      cases hs : splitFirst sep rest with
      | none => rw [hs] at h; exact absurd h (by simp)
      | some pa =>
        obtain ⟨b', a'⟩ := pa
        rw [hs] at h
        simp only [Option.some.injEq, Prod.mk.injEq] at h
        obtain ⟨hb, ha⟩ := h
        obtain ⟨hrest, hb'⟩ := ih hs
        subst hb; subst ha
        constructor
        · simp [hrest]
        · rw [splitFirst]
          have hp2 : ¬ sep.isPrefixOf (c :: b') := by
            intro hp2
            apply hp
            rw [List.isPrefixOf_iff_prefix] at hp2 ⊢
            refine hp2.trans ⟨sep ++ a', ?_⟩
            simp [hrest]
          rw [if_neg hp2, hb']

theorem marker_length : marker.length = 7 := by decide

theorem marker_no_period {t : Nat} (h1 : 1 ≤ t) (h6 : t ≤ 6) :
    marker.drop t ≠ marker.take (7 - t) := by
  interval_cases t <;> decide

theorem not_marker_prefix_append {a : List Char} (ha : ¬ marker <+: a)
    (hne : a ≠ []) (b : List Char) : ¬ marker <+: (a ++ (marker ++ b)) := by
  intro hp
  obtain ⟨t, ht⟩ := hp
  rcases le_or_lt 7 a.length with h7 | h7
  · apply ha
    have hm : marker = a.take 7 := by
      have h1 : (marker ++ t).take 7 = marker := List.take_left' marker_length
      rw [ht] at h1
      rw [← h1, List.take_append_of_le_length h7]
    rw [hm]
    exact List.take_prefix _ _
  · have hn1 : 1 ≤ a.length := by
      cases a with
      | nil => exact absurd rfl hne
      | cons x xs => simp
    have hn6 : a.length ≤ 6 := by omega
    have h2 : marker.drop a.length ++ t = marker ++ b := by
      have hd : (marker ++ t).drop a.length = marker.drop a.length ++ t :=
        List.drop_append_of_le_length (by rw [marker_length]; omega)
      rw [ht, List.drop_left] at hd
      exact hd.symm
    have h3 : marker.drop a.length = marker.take (7 - a.length) := by
      have hl : (marker.drop a.length).length = 7 - a.length := by
        rw [List.length_drop, marker_length]
      have hL : (marker.drop a.length ++ t).take (7 - a.length) = marker.drop a.length :=
        List.take_left' hl
      rw [h2, List.take_append_of_le_length (by rw [marker_length]; omega)] at hL
      exact hL.symm
    exact marker_no_period hn1 hn6 h3

theorem splitFirst_append_self {sep : List Char} (hne : sep ≠ [])
    (b : List Char) : splitFirst sep (sep ++ b) = some ([], b) := by
  obtain ⟨c, s, rfl⟩ : ∃ c s, sep = c :: s := by
    cases sep with
    | nil => exact absurd rfl hne
    | cons c s => exact ⟨c, s, rfl⟩
  rw [List.cons_append, splitFirst]
  have hp : (c :: s).isPrefixOf (c :: (s ++ b)) := by
    rw [List.isPrefixOf_iff_prefix]
    exact ⟨b, by simp⟩
  have hd : (c :: (s ++ b)).drop (c :: s).length = b := by
    rw [← List.cons_append, List.drop_left]
  rw [if_pos hp, hd]

theorem splitFirst_marker_append {pre : List Char}
    (h : splitFirst marker pre = none) (b : List Char) :
    splitFirst marker (pre ++ marker ++ b) = some (pre, b) := by
  induction pre with
  | nil =>
    simpa using splitFirst_append_self (show marker ≠ [] by decide) b
  | cons c pre' ih =>
    obtain ⟨hnp, h'⟩ := splitFirst_cons_none h
    have hstep := ih h'
    rw [List.append_assoc, List.cons_append, splitFirst]
    have hcond : ¬ marker.isPrefixOf (c :: (pre' ++ (marker ++ b))) := by
      rw [List.isPrefixOf_iff_prefix]
      have := not_marker_prefix_append hnp (by simp) b
      simpa using this
    rw [if_neg hcond]
    rw [List.append_assoc] at hstep
    rw [hstep]

theorem splitFirst_marker_of_no_comma {s : List Char} (h : ∀ c ∈ s, c ≠ ',') :
    splitFirst marker s = none := by
  induction s with
  | nil => rfl
  | cons c rest ih =>
    rw [splitFirst]
    have hp : ¬ marker.isPrefixOf (c :: rest) := by
      intro hp
      obtain ⟨t, ht⟩ := (List.isPrefixOf_iff_prefix).mp hp
      have hmem : ',' ∈ c :: rest := by
        rw [← ht]
        exact List.mem_append_left _ (by decide)
      exact h _ hmem rfl
    rw [if_neg hp, ih fun d hd => h d (List.mem_cons_of_mem _ hd)]

theorem jsSplit01_none_iff {s : List Char} :
    jsSplit01 s = none ↔ splitFirst marker s = none := by
  unfold jsSplit01
  constructor
  · intro h
    split at h
    · assumption
    · split at h <;> exact absurd h (by simp)
  · intro h
    rw [h]

theorem jsSplit01_some_payload {s p pl : List Char}
    (h : jsSplit01 s = some (p, pl)) : splitFirst marker pl = none := by
  unfold jsSplit01 at h
  split at h
  · exact absurd h (by simp)
  · rename_i p' rest hs
    split at h
    · rename_i hr
      simp only [Option.some.injEq, Prod.mk.injEq] at h
      rw [← h.2]
      exact hr
    · rename_i q b hr
      simp only [Option.some.injEq, Prod.mk.injEq] at h
      rw [← h.2]
      exact (splitFirst_eq_some hr).2

theorem jsSplit01_of_parts {p0 pl : List Char}
    (hp0 : splitFirst marker p0 = none) (hpl : splitFirst marker pl = none) :
    jsSplit01 (p0 ++ marker ++ pl) = some (p0, pl) := by
  unfold jsSplit01
  rw [splitFirst_marker_append hp0]
  simp [hpl]

theorem jsSplit01_two {p0 mid tail : List Char}
    (hp0 : splitFirst marker p0 = none) (hmid : splitFirst marker mid = none) :
    jsSplit01 (p0 ++ marker ++ (mid ++ marker ++ tail)) = some (p0, mid) := by
  unfold jsSplit01
  rw [splitFirst_marker_append hp0]
  have h2 := splitFirst_marker_append hmid tail
  rw [List.append_assoc] at h2
  simp [h2]

theorem splitDataUrl_of_parts {p0 pl : List Char}
    (hp0 : splitFirst marker p0 = none) (hpl : splitFirst marker pl = none) :
    splitDataUrl (p0 ++ marker ++ pl) = (p0 ++ marker, pl) := by
  unfold splitDataUrl
  rw [jsSplit01_of_parts hp0 hpl]

theorem splitDataUrl_no_marker {s : List Char}
    (h : splitFirst marker s = none) : splitDataUrl s = ([], s) := by
  unfold splitDataUrl
  rw [jsSplit01_none_iff.mpr h]

theorem decryptSplit_of_parts {p0 pl : List Char}
    (hp0 : splitFirst marker p0 = none) (hpl : splitFirst marker pl = none) :
    decryptSplit (p0 ++ marker ++ pl) = (p0 ++ marker, pl) := by
  unfold decryptSplit
  rw [jsSplit01_of_parts hp0 hpl]

theorem decryptSplit_no_marker {s : List Char}
    (h : splitFirst marker s = none) :
    decryptSplit s = ("data:application/octet-stream;base64,".data, s) := by
  unfold decryptSplit
  rw [jsSplit01_none_iff.mpr h]

theorem splitDataUrl_payload_no_marker (s : List Char) :
    splitFirst marker (splitDataUrl s).2 = none := by
  unfold splitDataUrl
  cases h : jsSplit01 s with
  | none => exact jsSplit01_none_iff.mp h
  | some pa => obtain ⟨p, pl⟩ := pa; exact jsSplit01_some_payload h

theorem decryptSplit_payload_no_marker (s : List Char) :
    splitFirst marker (decryptSplit s).2 = none := by
  unfold decryptSplit
  cases h : jsSplit01 s with
  | none => exact jsSplit01_none_iff.mp h
  | some pa => obtain ⟨p, pl⟩ := pa; exact jsSplit01_some_payload h

theorem splitDataUrl_eq_decryptSplit {s p pl : List Char}
    (h : jsSplit01 s = some (p, pl)) : splitDataUrl s = decryptSplit s := by
  unfold splitDataUrl decryptSplit
  rw [h]

/-! ### Lemmas about the base64 codec -/

theorem b64Index_b64Char : ∀ n < 64, b64Index (b64Char n) = some n := by decide

theorem b64Char_mem (n : Nat) : b64Char n ∈ b64Alphabet := by
  unfold b64Char
  rw [List.getD_eq_getElem?_getD]
  rcases lt_or_ge n b64Alphabet.length with h | h
  · rw [List.getElem?_eq_getElem h]
    exact List.getElem_mem h
  · rw [List.getElem?_eq_none h]
    decide

theorem alphabet_char_facts : ∀ c ∈ b64Alphabet,
    isAsciiWS c = false ∧ isJsWS c = false ∧ c ≠ ',' ∧ c ≠ '=' := by decide

theorem mem_b64EncodeChunks {bs : List Nat} {c : Char}
    (h : c ∈ b64EncodeChunks bs) : c ∈ b64Alphabet ∨ c = '=' := by
  induction bs using b64EncodeChunks.induct with
  | case1 => simp [b64EncodeChunks] at h
  | case2 b1 =>
    simp only [b64EncodeChunks, List.mem_cons, List.not_mem_nil, or_false] at h
    rcases h with rfl | rfl | rfl | rfl
    · exact Or.inl (b64Char_mem _)
    · exact Or.inl (b64Char_mem _)
    · exact Or.inr rfl
    · exact Or.inr rfl
  | case3 b1 b2 =>
    simp only [b64EncodeChunks, List.mem_cons, List.not_mem_nil, or_false] at h
    rcases h with rfl | rfl | rfl | rfl
    · exact Or.inl (b64Char_mem _)
    · exact Or.inl (b64Char_mem _)
    · exact Or.inl (b64Char_mem _)
    · exact Or.inr rfl
  | case4 b1 b2 b3 rest ih =>
    simp only [b64EncodeChunks, List.mem_cons] at h
    rcases h with rfl | rfl | rfl | rfl | h
    · exact Or.inl (b64Char_mem _)
    · exact Or.inl (b64Char_mem _)
    · exact Or.inl (b64Char_mem _)
    · exact Or.inl (b64Char_mem _)
    · exact ih h

theorem b64EncodeChunks_no_comma (bs : List Nat) :
    splitFirst marker (b64EncodeChunks bs) = none := by
  apply splitFirst_marker_of_no_comma
  intro c hc
  rcases mem_b64EncodeChunks hc with h | rfl
  · exact (alphabet_char_facts c h).2.2.1
  · decide

theorem b64EncodeChunks_not_ws {bs : List Nat} {c : Char}
    (h : c ∈ b64EncodeChunks bs) : isAsciiWS c = false ∧ isJsWS c = false := by
  rcases mem_b64EncodeChunks h with hm | rfl
  · exact ⟨(alphabet_char_facts c hm).1, (alphabet_char_facts c hm).2.1⟩
  · constructor <;> decide

theorem b64EncodeChunks_filter (bs : List Nat) :
    (b64EncodeChunks bs).filter (fun c => !isAsciiWS c) = b64EncodeChunks bs := by
  rw [List.filter_eq_self]
  intro c hc
  rw [(b64EncodeChunks_not_ws hc).1]
  rfl

theorem b64EncodeChunks_length (bs : List Nat) :
    (b64EncodeChunks bs).length = 4 * ((bs.length + 2) / 3) := by
  induction bs using b64EncodeChunks.induct with
  | case1 => rfl
  | case2 b1 => simp [b64EncodeChunks]
  | case3 b1 b2 => simp [b64EncodeChunks]
  | case4 b1 b2 b3 rest ih =>
    simp only [b64EncodeChunks, List.length_cons, ih]
    omega

theorem stripEq_of_ne {xs : List Char} (h : xs.getLast? ≠ some '=') :
    stripEq xs = xs := by
  unfold stripEq
  rw [if_neg h]

theorem stripEq_append (xs tail : List Char) (h : 2 ≤ tail.length) :
    stripEq (xs ++ tail) = xs ++ stripEq tail := by
  have hne : tail ≠ [] := by
    intro he
    rw [he] at h
    simp at h
  have hne1 : tail.dropLast ≠ [] := by
    intro he
    have := congrArg List.length he
    rw [List.length_dropLast] at this
    simp at this
    omega
  have hLast : (xs ++ tail).getLast? = tail.getLast? := by
    rw [List.getLast?_append]
    cases hl : tail.getLast? with
    | none => exact absurd (List.getLast?_eq_none_iff.mp hl) hne
    | some c => rfl
  have hDrop : (xs ++ tail).dropLast = xs ++ tail.dropLast :=
    List.dropLast_append_of_ne_nil xs hne
  have hLast1 : (xs ++ tail.dropLast).getLast? = tail.dropLast.getLast? := by
    rw [List.getLast?_append]
    cases hl : tail.dropLast.getLast? with
    | none => exact absurd (List.getLast?_eq_none_iff.mp hl) hne1
    | some c => rfl
  have hDrop1 : (xs ++ tail.dropLast).dropLast = xs ++ tail.dropLast.dropLast :=
    List.dropLast_append_of_ne_nil xs hne1
  unfold stripEq
  by_cases h1 : tail.getLast? = some '='
  · rw [if_pos (by rw [hLast]; exact h1), if_pos h1]
    simp only [hDrop]
    by_cases h2 : tail.dropLast.getLast? = some '='
    · rw [if_pos (by rw [hLast1]; exact h2), if_pos h2, hDrop1]
    · rw [if_neg (by rw [hLast1]; exact h2), if_neg h2]
  · rw [if_neg (by rw [hLast]; exact h1), if_neg h1]

theorem stripEq_pair {c : Char} (h : c ≠ '=') : stripEq [c, '='] = [c] := by
  unfold stripEq
  simp [h]

theorem stripEq_length (cs : List Char) :
    cs.length - 2 ≤ (stripEq cs).length ∧ (stripEq cs).length ≤ cs.length := by
  unfold stripEq
  by_cases h1 : cs.getLast? = some '='
  · rw [if_pos h1]
    by_cases h2 : cs.dropLast.getLast? = some '='
    · simp only [h2, if_pos]
      rw [List.length_dropLast, List.length_dropLast]
      omega
    · simp only [h2, if_neg, ite_false]
      rw [List.length_dropLast]
      omega
  · rw [if_neg h1]
    omega

theorem b64Char_ne_eq (n : Nat) : b64Char n ≠ '=' :=
  (alphabet_char_facts _ (b64Char_mem n)).2.2.2

theorem decode_strip_encode : ∀ {bs : List Nat}, (∀ b ∈ bs, b < 256) →
    b64DecodeChunks (stripEq (b64EncodeChunks bs)) = some bs := by
  intro bs
  induction bs using b64EncodeChunks.induct with
  | case1 => intro _; rfl
  | case2 b1 =>
    intro h
    have hb1 : b1 < 256 := h b1 (by simp)
    have hstrip : stripEq (b64EncodeChunks [b1])
        = [b64Char (b1 / 4), b64Char (b1 % 4 * 16)] := by
      have hap := stripEq_append [b64Char (b1 / 4), b64Char (b1 % 4 * 16)]
        ['=', '='] (by decide)
      have he : stripEq ['=', '='] = [] := by decide
      rw [he] at hap
      simpa [b64EncodeChunks] using hap
    rw [hstrip]
    have h1 : b64Index (b64Char (b1 / 4)) = some (b1 / 4) :=
      b64Index_b64Char _ (by omega)
    have h2 : b64Index (b64Char (b1 % 4 * 16)) = some (b1 % 4 * 16) :=
      b64Index_b64Char _ (by omega)
    simp only [b64DecodeChunks, h1, h2, Option.bind_eq_bind, Option.some_bind, Option.some.injEq,
      List.cons.injEq, and_true]
    omega
  | case3 b1 b2 =>
    intro h
    have hb1 : b1 < 256 := h b1 (by simp)
    have hb2 : b2 < 256 := h b2 (by simp)
    have hstrip : stripEq (b64EncodeChunks [b1, b2])
        = [b64Char (b1 / 4), b64Char (b1 % 4 * 16 + b2 / 16), b64Char (b2 % 16 * 4)] := by
      have hap := stripEq_append [b64Char (b1 / 4), b64Char (b1 % 4 * 16 + b2 / 16)]
        [b64Char (b2 % 16 * 4), '='] (by simp)
      rw [stripEq_pair (b64Char_ne_eq _)] at hap
      simpa [b64EncodeChunks] using hap
    rw [hstrip]
    have h1 : b64Index (b64Char (b1 / 4)) = some (b1 / 4) :=
      b64Index_b64Char _ (by omega)
    have h2 : b64Index (b64Char (b1 % 4 * 16 + b2 / 16)) = some (b1 % 4 * 16 + b2 / 16) :=
      b64Index_b64Char _ (by omega)
    have h3 : b64Index (b64Char (b2 % 16 * 4)) = some (b2 % 16 * 4) :=
      b64Index_b64Char _ (by omega)
    simp only [b64DecodeChunks, h1, h2, h3, Option.bind_eq_bind, Option.some_bind, Option.some.injEq,
      List.cons.injEq, and_true]
    omega
  | case4 b1 b2 b3 rest ih =>
    intro h
    have hb1 : b1 < 256 := h b1 (by simp)
    have hb2 : b2 < 256 := h b2 (by simp)
    have hb3 : b3 < 256 := h b3 (by simp)
    have hrest : ∀ b ∈ rest, b < 256 := fun b hb => h b (by simp [hb])
    have h1 : b64Index (b64Char (b1 / 4)) = some (b1 / 4) :=
      b64Index_b64Char _ (by omega)
    have h2 : b64Index (b64Char (b1 % 4 * 16 + b2 / 16)) = some (b1 % 4 * 16 + b2 / 16) :=
      b64Index_b64Char _ (by omega)
    have h3 : b64Index (b64Char (b2 % 16 * 4 + b3 / 64)) = some (b2 % 16 * 4 + b3 / 64) :=
      b64Index_b64Char _ (by omega)
    have h4 : b64Index (b64Char (b3 % 64)) = some (b3 % 64) :=
      b64Index_b64Char _ (by omega)
    by_cases hr : rest = []
    · subst hr
      have hstrip : stripEq (b64EncodeChunks [b1, b2, b3]) = b64EncodeChunks [b1, b2, b3] := by
        apply stripEq_of_ne
        simp only [b64EncodeChunks]
        intro hlast
        simp only [List.getLast?] at hlast
        exact b64Char_ne_eq (b3 % 64) (by injection hlast)
      rw [hstrip]
      simp only [b64EncodeChunks, b64DecodeChunks, h1, h2, h3, h4,
        Option.bind_eq_bind, Option.some_bind, Option.some.injEq, List.cons.injEq, and_true]
      omega
    · have hlen : 2 ≤ (b64EncodeChunks rest).length := by
        rw [b64EncodeChunks_length]
        cases rest with
        | nil => exact absurd rfl hr
        | cons x xs => simp; omega
      have hstrip : stripEq (b64EncodeChunks (b1 :: b2 :: b3 :: rest))
          = b64Char (b1 / 4) :: b64Char (b1 % 4 * 16 + b2 / 16) ::
            b64Char (b2 % 16 * 4 + b3 / 64) :: b64Char (b3 % 64) ::
            stripEq (b64EncodeChunks rest) := by
        have hap := stripEq_append [b64Char (b1 / 4), b64Char (b1 % 4 * 16 + b2 / 16),
          b64Char (b2 % 16 * 4 + b3 / 64), b64Char (b3 % 64)]
          (b64EncodeChunks rest) hlen
        simpa [b64EncodeChunks] using hap
      rw [hstrip]
      simp only [b64DecodeChunks, h1, h2, h3, h4, ih hrest,
        Option.bind_eq_bind, Option.some_bind, Option.some.injEq, List.cons.injEq, and_true]
      omega

theorem atob_encode {bs : List Nat} (h : ∀ b ∈ bs, b < 256) :
    atobModel (b64EncodeChunks bs) = some bs := by
  unfold atobModel
  dsimp only
  rw [b64EncodeChunks_filter]
  have hmod : (b64EncodeChunks bs).length % 4 = 0 := by
    rw [b64EncodeChunks_length]; omega
  rw [if_pos hmod]
  have hs := stripEq_length (b64EncodeChunks bs)
  rw [if_neg (by omega)]
  exact decode_strip_encode h

theorem b64EncodeChunks_eq_nil_iff {bs : List Nat} :
    b64EncodeChunks bs = [] ↔ bs = [] := by
  constructor
  · intro h
    have := congrArg List.length h
    rw [b64EncodeChunks_length] at this
    simp at this
    cases bs with
    | nil => rfl
    | cons x xs => simp at this; omega
  · intro h; rw [h]; rfl

theorem base64ToArrayBuffer_encode {bs : List Nat} (h : ∀ b ∈ bs, b < 256) :
    base64ToArrayBuffer (b64EncodeChunks bs) = some bs := by
  unfold base64ToArrayBuffer
  by_cases hb : b64EncodeChunks bs = []
  · rw [if_pos hb]
    rw [b64EncodeChunks_eq_nil_iff.mp hb]
  · rw [if_neg hb, jsSplit01_none_iff.mpr (b64EncodeChunks_no_comma bs)]
    exact atob_encode h

theorem b64EncodeChunks_all_ws_false {bs : List Nat} (h : bs ≠ []) :
    (b64EncodeChunks bs).all isJsWS = false := by
  rw [List.all_eq_false]
  obtain ⟨c, hc⟩ : ∃ c, c ∈ b64EncodeChunks bs := by
    cases he : b64EncodeChunks bs with
    | nil => exact absurd (b64EncodeChunks_eq_nil_iff.mp he) h
    | cons d cs => exact ⟨d, by simp [he]⟩
  refine ⟨c, hc, ?_⟩
  rw [(b64EncodeChunks_not_ws hc).2]
  simp

/-! ### Evaluation lemmas for the cipher-engine wrappers -/

theorem encryptData_eval (aeadEnc : List Nat → List Nat → List Nat → List Nat)
    (data key : List Char) (iv : List Nat)
    (hkey : (hexStringToBuffer key).length = 32)
    (pt : List Nat) (hpl : base64ToArrayBuffer (splitDataUrl data).2 = some pt) :
    encryptData aeadEnc data key iv =
      .ok ((splitDataUrl data).1 ++
        b64EncodeChunks (iv ++ aeadEnc (hexStringToBuffer key) iv pt)) := by
  unfold encryptData
  dsimp only
  rw [hpl]
  unfold importKeyOk
  rw [if_pos (by simp [hkey])]

theorem decryptData_eval (aeadDec : List Nat → List Nat → List Nat → Option (List Nat))
    (enc key : List Char) (hne : enc ≠ [])
    (hblank : (decryptSplit enc).2.all isJsWS = false)
    (hkey : (hexStringToBuffer key).length = 32)
    (bytes : List Nat) (hdec : base64ToArrayBuffer (decryptSplit enc).2 = some bytes)
    (hlen : 12 < bytes.length) :
    decryptData aeadDec enc key =
      match aeadDec (hexStringToBuffer key) (bytes.take 12) (bytes.drop 12) with
      | some pt => .ok ((decryptSplit enc).1 ++ b64EncodeChunks pt)
      | none => .error .authFail := by
  unfold decryptData
  dsimp only
  rw [if_neg hne, hblank]
  rw [if_neg (by simp)]
  unfold importKeyOk
  rw [if_pos (by simp [hkey]), hdec]
  dsimp only
  rw [if_neg (by omega)]

theorem append_marker_ne_nil (p x : List Char) : p ++ marker ++ x ≠ [] := by
  intro h
  have hl := congrArg List.length h
  simp only [List.length_append, marker_length, List.length_nil] at hl
  omega

/-- C1: for every plaintext input `P` — a base64 string `b64EncodeChunks pt`
or a data URL `pre ++ "base64," ++ b64EncodeChunks pt` — and every key that
hex-decodes to 32 bytes, decrypting the blob produced by encryption under
the same key returns `P` byte-for-byte, up to the synthesized default
data-URL prefix in the marker-less case.  The AES-GCM primitive is
external (Web Crypto); its round-trip contract, the 16-byte tag framing
and byte-valued outputs appear as the hypotheses `hdec`, `hctlen`, `hctb`,
and the 12-byte entropy draw as `hiv`/`hivb`. -/
theorem claimC1_roundtrip
    (aeadEnc : List Nat → List Nat → List Nat → List Nat)
    (aeadDec : List Nat → List Nat → List Nat → Option (List Nat))
    (pre key : List Char) (pt iv : List Nat)
    (hpre : splitFirst marker pre = none)
    (hpt : ∀ b ∈ pt, b < 256)
    (hkey : (hexStringToBuffer key).length = 32)
    (hiv : iv.length = 12) (hivb : ∀ b ∈ iv, b < 256)
    (hctb : ∀ b ∈ aeadEnc (hexStringToBuffer key) iv pt, b < 256)
    (hctlen : (aeadEnc (hexStringToBuffer key) iv pt).length = pt.length + 16)
    (hdec : aeadDec (hexStringToBuffer key) iv (aeadEnc (hexStringToBuffer key) iv pt)
      = some pt) :
    (∀ blob, encryptData aeadEnc (pre ++ marker ++ b64EncodeChunks pt) key iv = .ok blob →
       decryptData aeadDec blob key = .ok (pre ++ marker ++ b64EncodeChunks pt)) ∧
    (∀ blob, encryptData aeadEnc (b64EncodeChunks pt) key iv = .ok blob →
       decryptData aeadDec blob key =
         .ok ("data:application/octet-stream;base64,".data ++ b64EncodeChunks pt)) := by
  have hbb : ∀ b ∈ iv ++ aeadEnc (hexStringToBuffer key) iv pt, b < 256 := by
    intro b hb
    rcases List.mem_append.mp hb with h | h
    · exact hivb b h
    · exact hctb b h
  have hblen : 12 < (iv ++ aeadEnc (hexStringToBuffer key) iv pt).length := by
    rw [List.length_append, hiv, hctlen]
    omega
  have hbne : iv ++ aeadEnc (hexStringToBuffer key) iv pt ≠ [] := by
    intro h
    rw [h] at hblen
    simp at hblen
  have hplmf : splitFirst marker (b64EncodeChunks pt) = none := b64EncodeChunks_no_comma pt
  have hblobmf : splitFirst marker
      (b64EncodeChunks (iv ++ aeadEnc (hexStringToBuffer key) iv pt)) = none :=
    b64EncodeChunks_no_comma _
  have htake : (iv ++ aeadEnc (hexStringToBuffer key) iv pt).take 12 = iv :=
    List.take_left' hiv
  have hdrop : (iv ++ aeadEnc (hexStringToBuffer key) iv pt).drop 12
      = aeadEnc (hexStringToBuffer key) iv pt := List.drop_left' hiv
  constructor
  · have hsplit : splitDataUrl (pre ++ marker ++ b64EncodeChunks pt)
        = (pre ++ marker, b64EncodeChunks pt) := splitDataUrl_of_parts hpre hplmf
    intro blob hblob
    have henc := encryptData_eval aeadEnc (pre ++ marker ++ b64EncodeChunks pt) key iv hkey
      pt (by rw [hsplit]; exact base64ToArrayBuffer_encode hpt)
    rw [hsplit] at henc
    dsimp only at henc
    rw [henc] at hblob
    obtain rfl : _ = blob := Except.ok.inj hblob
    have hdsplit : decryptSplit
        (pre ++ marker ++ b64EncodeChunks (iv ++ aeadEnc (hexStringToBuffer key) iv pt))
        = (pre ++ marker, b64EncodeChunks (iv ++ aeadEnc (hexStringToBuffer key) iv pt)) :=
      decryptSplit_of_parts hpre hblobmf
    have heval := decryptData_eval aeadDec
      (pre ++ marker ++ b64EncodeChunks (iv ++ aeadEnc (hexStringToBuffer key) iv pt)) key
      (append_marker_ne_nil pre _)
      (by rw [hdsplit]; exact b64EncodeChunks_all_ws_false hbne)
      hkey
      (iv ++ aeadEnc (hexStringToBuffer key) iv pt)
      (by rw [hdsplit]; exact base64ToArrayBuffer_encode hbb)
      hblen
    rw [heval, htake, hdrop, hdec, hdsplit]
  · have hsplit : splitDataUrl (b64EncodeChunks pt) = ([], b64EncodeChunks pt) :=
      splitDataUrl_no_marker hplmf
    intro blob hblob
    have henc := encryptData_eval aeadEnc (b64EncodeChunks pt) key iv hkey
      pt (by rw [hsplit]; exact base64ToArrayBuffer_encode hpt)
    rw [hsplit] at henc
    dsimp only at henc
    rw [List.nil_append] at henc
    rw [henc] at hblob
    obtain rfl : _ = blob := Except.ok.inj hblob
    have hbne2 : b64EncodeChunks (iv ++ aeadEnc (hexStringToBuffer key) iv pt) ≠ [] := by
      intro h
      exact hbne (b64EncodeChunks_eq_nil_iff.mp h)
    have hdsplit : decryptSplit
        (b64EncodeChunks (iv ++ aeadEnc (hexStringToBuffer key) iv pt))
        = ("data:application/octet-stream;base64,".data,
           b64EncodeChunks (iv ++ aeadEnc (hexStringToBuffer key) iv pt)) :=
      decryptSplit_no_marker hblobmf
    have heval := decryptData_eval aeadDec
      (b64EncodeChunks (iv ++ aeadEnc (hexStringToBuffer key) iv pt)) key
      hbne2
      (by rw [hdsplit]; exact b64EncodeChunks_all_ws_false hbne)
      hkey
      (iv ++ aeadEnc (hexStringToBuffer key) iv pt)
      (by rw [hdsplit]; exact base64ToArrayBuffer_encode hbb)
      hblen
    rw [heval, htake, hdrop, hdec, hdsplit]

set_option maxRecDepth 8192 in
theorem claimC1_roundtrip_witness :
    decryptData specAEADDec
      "data:image/png;base64,AAECAwQFBgcICQoL7O/y12r4ix6sP81g7oEUojXDVg==".data testKey
      = .ok ("data:image/png;".data ++ marker ++ b64EncodeChunks [65, 66, 67]) ∧
    decryptData specAEADDec
      "AAECAwQFBgcICQoL7O/y12r4ix6sP81g7oEUojXDVg==".data testKey
      = .ok ("data:application/octet-stream;base64,".data
          ++ b64EncodeChunks [65, 66, 67]) :=
  have h := claimC1_roundtrip specAEADEnc specAEADDec "data:image/png;".data testKey
    [65, 66, 67] testIV (by decide) (by decide) (by decide) (by decide) (by decide)
    (by decide) (by decide) (by decide)
  ⟨h.1 "data:image/png;base64,AAECAwQFBgcICQoL7O/y12r4ix6sP81g7oEUojXDVg==".data
      (by decide),
   h.2 "AAECAwQFBgcICQoL7O/y12r4ix6sP81g7oEUojXDVg==".data (by decide)⟩

theorem flipBit_length (i : Nat) (bs : List Nat) :
    (flipBit i bs).length = bs.length := by
  unfold flipBit
  exact List.length_set bs ..

theorem flipBit_bytes {bs : List Nat} (h : ∀ b ∈ bs, b < 256) (i : Nat) :
    ∀ b ∈ flipBit i bs, b < 256 := by
  intro b hb
  unfold flipBit at hb
  rcases List.mem_or_eq_of_mem_set hb with hm | rfl
  · exact h b hm
  · have hg : bs.getD (i / 8) 0 < 256 := by
      rw [List.getD_eq_getElem?_getD]
      cases hx : bs[i / 8]? with
      | none => simp
      | some v =>
        have := List.getElem?_mem hx
        simpa using h v this
    have hp : 2 ^ (i % 8) < 256 := by
      have : i % 8 < 8 := Nat.mod_lt _ (by omega)
      calc 2 ^ (i % 8) ≤ 2 ^ 7 := Nat.pow_le_pow_right (by omega) (by omega)
        _ < 256 := by omega
    have h256 : (2 : Nat) ^ 8 = 256 := by norm_num
    rw [← h256] at hg hp
    have hx := Nat.xor_lt_two_pow hg hp
    rw [h256] at hx
    simpa using hx

theorem decryptData_reject
    (aeadDec : List Nat → List Nat → List Nat → Option (List Nat))
    (key : List Char) {bs : List Nat}
    (hb : ∀ b ∈ bs, b < 256) (hlen : 12 < bs.length)
    (hkey : (hexStringToBuffer key).length = 32)
    (hrej : aeadDec (hexStringToBuffer key) (bs.take 12) (bs.drop 12) = none) :
    decryptData aeadDec (b64EncodeChunks bs) key = .error .authFail := by
  have hne : bs ≠ [] := by
    intro h
    rw [h] at hlen
    simp at hlen
  have hmf := b64EncodeChunks_no_comma bs
  have hdsplit := decryptSplit_no_marker hmf
  have heval := decryptData_eval aeadDec (b64EncodeChunks bs) key
    (by intro h; exact hne (b64EncodeChunks_eq_nil_iff.mp h))
    (by rw [hdsplit]; exact b64EncodeChunks_all_ws_false hne)
    hkey
    bs (by rw [hdsplit]; exact base64ToArrayBuffer_encode hb)
    hlen
  rw [heval, hrej]

/-- C2: for every framed blob of more than 12 bytes, decrypting the
base64 encoding of any single-bit-flipped variant fails with the
authentication `CryptoError` whenever the AEAD primitive rejects the
tampered frame (first conjunct, the primitive's rejection being AES-GCM's
documented guarantee), and decrypting the unmodified blob under a
different key fails the same way whenever the primitive rejects that key
(second conjunct); the error is a `CryptoError`, so no altered plaintext
is ever returned (third conjunct). -/
theorem claimC2_tamper_wrong_key
    (aeadDec : List Nat → List Nat → List Nat → Option (List Nat))
    (key key2 : List Char) (bs : List Nat) (i : Nat)
    (hb : ∀ b ∈ bs, b < 256) (hlen : 12 < bs.length)
    (hkey : (hexStringToBuffer key).length = 32)
    (hkey2 : (hexStringToBuffer key2).length = 32) :
    ((aeadDec (hexStringToBuffer key) ((flipBit i bs).take 12) ((flipBit i bs).drop 12)
        = none) →
      decryptData aeadDec (b64EncodeChunks (flipBit i bs)) key = .error .authFail) ∧
    ((aeadDec (hexStringToBuffer key2) (bs.take 12) (bs.drop 12) = none) →
      decryptData aeadDec (b64EncodeChunks bs) key2 = .error .authFail) ∧
    isCryptoError .authFail = true := by
  refine ⟨fun hrej => ?_, fun hrej => ?_, rfl⟩
  · exact decryptData_reject aeadDec key (flipBit_bytes hb i)
      (by rw [flipBit_length]; exact hlen) hkey hrej
  · exact decryptData_reject aeadDec key2 hb hlen hkey2 hrej

set_option maxRecDepth 8192 in
theorem claimC2_tamper_wrong_key_witness :
    (decryptData specAEADDec (b64EncodeChunks (flipBit 5 testFrame)) testKey
      = .error .authFail) ∧
    (decryptData specAEADDec (b64EncodeChunks testFrame) testKey2
      = .error .authFail) := by
  have h := claimC2_tamper_wrong_key specAEADDec testKey testKey2 testFrame 5
    (by decide) (by decide) (by decide) (by decide)
  exact ⟨h.1 (by decide), h.2.1 (by decide)⟩

theorem splitDataUrl_part0 {s p0 rest : List Char}
    (h : splitFirst marker s = some (p0, rest)) :
    (splitDataUrl s).1 = p0 ++ marker := by
  unfold splitDataUrl jsSplit01
  rw [h]
  dsimp only
  cases hr : splitFirst marker rest with
  | none => rfl
  | some qb => obtain ⟨q, b⟩ := qb; rfl

/-- C3: prefix handling of the data-URL envelope.  First conjunct: if an
encryption input contains the marker, the text up to and including the
marker reappears verbatim at the start of the encryption output.  Second
conjunct: if a decryption input contains no marker, any successful
decryption output starts with the synthesized
`"data:application/octet-stream;base64,"` prefix. -/
theorem claimC3_envelope :
    (∀ (aeadEnc : List Nat → List Nat → List Nat → List Nat)
       (data key : List Char) (iv : List Nat) (p0 rest o : List Char),
       splitFirst marker data = some (p0, rest) →
       encryptData aeadEnc data key iv = .ok o → (p0 ++ marker) <+: o) ∧
    (∀ (aeadDec : List Nat → List Nat → List Nat → Option (List Nat))
       (enc key o : List Char),
       splitFirst marker enc = none →
       decryptData aeadDec enc key = .ok o →
       "data:application/octet-stream;base64,".data <+: o) := by
  constructor
  · intro aeadEnc data key iv p0 rest o hmk hok
    unfold encryptData at hok
    dsimp only at hok
    split at hok
    · split at hok
      · rename_i dataBuffer hdb
        have ho : (splitDataUrl data).1 ++
            b64EncodeChunks (iv ++ aeadEnc (hexStringToBuffer key) iv dataBuffer) = o := by
          injection hok
        rw [← ho, splitDataUrl_part0 hmk]
        exact List.prefix_append _ _
      · exact absurd hok (by simp)
    · exact absurd hok (by simp)
  · intro aeadDec enc key o hmk hok
    unfold decryptData at hok
    dsimp only at hok
    split at hok
    · exact absurd hok (by simp)
    · split at hok
      · exact absurd hok (by simp)
      · split at hok
        · split at hok
          · split at hok
            · exact absurd hok (by simp)
            · split at hok
              · rename_i pt hpt
                have ho : (decryptSplit enc).1 ++ b64EncodeChunks pt = o := by
                  injection hok
                rw [← ho, decryptSplit_no_marker hmk]
                exact List.prefix_append _ _
              · exact absurd hok (by simp)
          · exact absurd hok (by simp)
        · exact absurd hok (by simp)

set_option maxRecDepth 8192 in
theorem claimC3_envelope_witness :
    ("data:image/png;".data ++ marker) <+:
      "data:image/png;base64,AAECAwQFBgcICQoL7O/y12r4ix6sP81g7oEUojXDVg==".data ∧
    "data:application/octet-stream;base64,".data <+:
      "data:application/octet-stream;base64,QUJD".data :=
  ⟨claimC3_envelope.1 specAEADEnc "data:image/png;base64,QUJD".data testKey testIV
      "data:image/png;".data "QUJD".data
      "data:image/png;base64,AAECAwQFBgcICQoL7O/y12r4ix6sP81g7oEUojXDVg==".data
      (by decide) (by decide),
   claimC3_envelope.2 specAEADDec (b64EncodeChunks testFrame) testKey
      "data:application/octet-stream;base64,QUJD".data (by decide) (by decide)⟩

theorem jsSplit01_some_part0 {s p pl : List Char}
    (h : jsSplit01 s = some (p, pl)) : splitFirst marker p = none := by
  unfold jsSplit01 at h
  split at h
  · exact absurd h (by simp)
  · rename_i p' rest hs
    split at h <;>
    · simp only [Option.some.injEq, Prod.mk.injEq] at h
      rw [← h.1]
      exact (splitFirst_eq_some hs).2

theorem splitDataUrl_part0_cases (s : List Char) :
    (splitDataUrl s).1 = [] ∨
    ∃ p0, (splitDataUrl s).1 = p0 ++ marker ∧ splitFirst marker p0 = none := by
  cases h : jsSplit01 s with
  | none =>
    left
    unfold splitDataUrl
    rw [h]
  | some pa =>
    obtain ⟨p, pl⟩ := pa
    right
    refine ⟨p, ?_, jsSplit01_some_part0 h⟩
    unfold splitDataUrl
    rw [h]

theorem nonceOf_blob {p1 : List Char} {bytes : List Nat}
    (hp1 : p1 = [] ∨ ∃ p0, p1 = p0 ++ marker ∧ splitFirst marker p0 = none)
    (hb : ∀ b ∈ bytes, b < 256) :
    nonceOf (p1 ++ b64EncodeChunks bytes) = some (bytes.take 12) := by
  unfold nonceOf
  rcases hp1 with rfl | ⟨p0, rfl, hp0⟩
  · rw [List.nil_append, decryptSplit_no_marker (b64EncodeChunks_no_comma bytes)]
    dsimp only
    rw [base64ToArrayBuffer_encode hb]
    rfl
  · rw [decryptSplit_of_parts hp0 (b64EncodeChunks_no_comma bytes)]
    dsimp only
    rw [base64ToArrayBuffer_encode hb]
    rfl

/-- C4: with the entropy draw made explicit, two encryption calls on the
same input and key that receive different 12-byte draws produce different
blobs, and the nonce embedded in each blob (its first 12 payload bytes)
is exactly the entropy draw of that call — it is taken verbatim from the
entropy source, not derived from the input content or a counter.  The
spec's guarantee that two independent draws differ (up to negligible
collision probability) appears as the hypothesis `hne`. -/
theorem claimC4_nonce_freshness
    (aeadEnc : List Nat → List Nat → List Nat → List Nat)
    (data key : List Char) (iv1 iv2 pt : List Nat)
    (hkey : (hexStringToBuffer key).length = 32)
    (hiv1 : iv1.length = 12) (hiv2 : iv2.length = 12)
    (hb1 : ∀ b ∈ iv1, b < 256) (hb2 : ∀ b ∈ iv2, b < 256)
    (hc1 : ∀ b ∈ aeadEnc (hexStringToBuffer key) iv1 pt, b < 256)
    (hc2 : ∀ b ∈ aeadEnc (hexStringToBuffer key) iv2 pt, b < 256)
    (hpl : base64ToArrayBuffer (splitDataUrl data).2 = some pt)
    (hne : iv1 ≠ iv2) :
    ∀ o1 o2, encryptData aeadEnc data key iv1 = .ok o1 →
      encryptData aeadEnc data key iv2 = .ok o2 →
      nonceOf o1 = some iv1 ∧ nonceOf o2 = some iv2 ∧ o1 ≠ o2 := by
  have henc1 := encryptData_eval aeadEnc data key iv1 hkey pt hpl
  have henc2 := encryptData_eval aeadEnc data key iv2 hkey pt hpl
  have hbb1 : ∀ b ∈ iv1 ++ aeadEnc (hexStringToBuffer key) iv1 pt, b < 256 := by
    intro b hb
    rcases List.mem_append.mp hb with h | h
    · exact hb1 b h
    · exact hc1 b h
  have hbb2 : ∀ b ∈ iv2 ++ aeadEnc (hexStringToBuffer key) iv2 pt, b < 256 := by
    intro b hb
    rcases List.mem_append.mp hb with h | h
    · exact hb2 b h
    · exact hc2 b h
  have hn1 := nonceOf_blob (splitDataUrl_part0_cases data) hbb1
  have hn2 := nonceOf_blob (splitDataUrl_part0_cases data) hbb2
  rw [List.take_left' hiv1] at hn1
  rw [List.take_left' hiv2] at hn2
  intro o1 o2 ho1 ho2
  rw [henc1] at ho1
  rw [henc2] at ho2
  obtain rfl : _ = o1 := Except.ok.inj ho1
  obtain rfl : _ = o2 := Except.ok.inj ho2
  refine ⟨hn1, hn2, ?_⟩
  intro heq
  rw [heq, hn2] at hn1
  exact hne (Option.some.inj hn1).symm

set_option maxRecDepth 8192 in
theorem claimC4_nonce_freshness_witness :
    nonceOf "AAECAwQFBgcICQoL7O/y12r4ix6sP81g7oEUojXDVg==".data = some testIV ∧
    nonceOf "YwECAwQFBgcICQoLT+/yLbtO3G8CkCOxRNJl84YZpw==".data = some testIV2 ∧
    "AAECAwQFBgcICQoL7O/y12r4ix6sP81g7oEUojXDVg==".data
      ≠ "YwECAwQFBgcICQoLT+/yLbtO3G8CkCOxRNJl84YZpw==".data :=
  claimC4_nonce_freshness specAEADEnc "QUJD".data testKey testIV testIV2 [65, 66, 67]
    (by decide) (by decide) (by decide) (by decide) (by decide) (by decide) (by decide)
    (by decide) (by decide)
    "AAECAwQFBgcICQoL7O/y12r4ix6sP81g7oEUojXDVg==".data
    "YwECAwQFBgcICQoLT+/yLbtO3G8CkCOxRNJl84YZpw==".data
    (by decide) (by decide)

/-- C5 counterexample: the input `"data:application/octet-stream;base64,"`
has a payload that base64-decodes to 0 bytes (fewer than 13), yet with a
valid 32-byte key `decryptData` fails with the blank-payload error — which
the spec's taxonomy classifies as `InputError`/`FormatError`, not the
`CryptoError` "too short" the claim requires. -/
theorem claimC5_counterexample :
    base64ToArrayBuffer (decryptSplit "data:application/octet-stream;base64,".data).2
      = some [] ∧
    decryptData specAEADDec "data:application/octet-stream;base64,".data testKey
      = .error .blankPayload ∧
    JsError.blankPayload ≠ JsError.tooShort ∧
    isCryptoError .blankPayload = false := by decide

/-- C5 amended: for every decryption input whose payload (after the
data-URL split) is non-blank and base64-decodes to at most 12 bytes, and
every key that hex-decodes to 32 bytes, `decryptData` fails with the
"too short" `CryptoError`.  (Blank payloads fail earlier with the
blank-payload error, and keys rejected at import fail with the key-import
`CryptoError` instead.) -/
theorem claimC5_tooShort_amended
    (aeadDec : List Nat → List Nat → List Nat → Option (List Nat))
    (enc key : List Char) (bs : List Nat)
    (hne : enc ≠ [])
    (hblank : (decryptSplit enc).2.all isJsWS = false)
    (hkey : (hexStringToBuffer key).length = 32)
    (hdec : base64ToArrayBuffer (decryptSplit enc).2 = some bs)
    (hshort : bs.length ≤ 12) :
    decryptData aeadDec enc key = .error .tooShort ∧
    isCryptoError .tooShort = true := by
  refine ⟨?_, rfl⟩
  unfold decryptData
  dsimp only
  rw [if_neg hne, hblank]
  rw [if_neg (by simp)]
  unfold importKeyOk
  rw [if_pos (by simp [hkey]), hdec]
  dsimp only
  rw [if_pos hshort]

set_option maxRecDepth 8192 in
theorem claimC5_tooShort_amended_witness :
    decryptData specAEADDec "QUJD".data testKey = .error .tooShort ∧
    isCryptoError .tooShort = true :=
  claimC5_tooShort_amended specAEADDec "QUJD".data testKey [65, 66, 67]
    (by decide) (by decide) (by decide) (by decide) (by decide)

/-- C6 counterexample: an odd-length hex string and a string with non-hex
characters are both decoded without any error — the pairwise regex match
silently drops the offending characters instead of raising `FormatError`. -/
theorem claimC6_counterexample :
    hexStringToBuffer "abc".data = [171] ∧
    hexStringToBuffer "zz01".data = [1] := by decide

theorem hexVal_lt (c : Char) : hexVal c < 16 := by
  unfold hexVal
  split
  · rename_i h
    simp only [Bool.and_eq_true, decide_eq_true_eq] at h
    omega
  · split
    · rename_i h
      simp only [Bool.and_eq_true, decide_eq_true_eq] at h
      omega
    · split
      · rename_i h
        simp only [Bool.and_eq_true, decide_eq_true_eq] at h
        omega
      · omega

theorem hexPairs_le (s : List Char) : 2 * (hexPairs s).length ≤ s.length := by
  induction s using hexPairs.induct with
  | case1 => simp [hexPairs]
  | case2 c => simp [hexPairs]
  | case3 c1 c2 rest hcond ih =>
    unfold hexPairs
    rw [if_pos hcond]
    simp only [List.length_cons] at ih ⊢
    omega
  | case4 c1 c2 rest hcond ih =>
    unfold hexPairs
    rw [if_neg hcond]
    simp only [List.length_cons] at ih ⊢
    omega

theorem hexPairs_full : ∀ {s : List Char}, (∀ c ∈ s, isHexDigit c) →
    s.length % 2 = 0 → 2 * (hexPairs s).length = s.length := by
  intro s
  induction s using hexPairs.induct with
  | case1 => intro _ _; rfl
  | case2 c => intro _ h; simp at h
  | case3 c1 c2 rest hcond ih =>
    intro hall heven
    unfold hexPairs
    rw [if_pos hcond]
    have := ih (fun c hc => hall c (by simp [hc])) (by simp at heven ⊢; omega)
    simp only [List.length_cons]
    omega
  | case4 c1 c2 rest hcond ih =>
    intro hall heven
    exact absurd (by
      rw [Bool.and_eq_true]
      exact ⟨hall c1 (by simp), hall c2 (by simp)⟩) hcond

/-- C6 amended: `hexStringToBuffer` never fails.  It returns at most
`⌊length/2⌋` bytes, each below 256, silently skipping non-hex characters
and odd tails; only on a well-formed hex string (even length, all hex
digits) does it decode every pair, producing exactly `length/2` bytes. -/
theorem claimC6_hex_lenient_amended : ∀ s : List Char,
    2 * (hexStringToBuffer s).length ≤ s.length ∧
    (∀ b ∈ hexStringToBuffer s, b < 256) ∧
    ((∀ c ∈ s, isHexDigit c) → s.length % 2 = 0 →
      2 * (hexStringToBuffer s).length = s.length) := by
  intro s
  refine ⟨?_, ?_, ?_⟩
  · unfold hexStringToBuffer
    rw [List.length_map]
    exact hexPairs_le s
  · intro b hb
    unfold hexStringToBuffer at hb
    obtain ⟨p, hp, rfl⟩ := List.mem_map.mp hb
    have h1 := hexVal_lt p.1
    have h2 := hexVal_lt p.2
    omega
  · intro hall heven
    unfold hexStringToBuffer
    rw [List.length_map]
    exact hexPairs_full hall heven

theorem claimC6_hex_lenient_amended_witness :
    2 * (hexStringToBuffer "0aff".data).length ≤ "0aff".data.length ∧
    2 * (hexStringToBuffer "0aff".data).length = "0aff".data.length :=
  ⟨(claimC6_hex_lenient_amended "0aff".data).1,
   (claimC6_hex_lenient_amended "0aff".data).2.2 (by decide) (by decide)⟩

/-- C7 counterexample: empty input to the base64 decode operations does
not fail — `base64ToArrayBuffer` hits its guard and returns a zero-length
buffer, and `atob` of the empty string returns zero bytes. -/
theorem claimC7_counterexample :
    base64ToArrayBuffer ([] : List Char) = some [] ∧
    atobModel ([] : List Char) = some [] := by decide

theorem mem_dropLast_of_ne {c : Char} {cs : List Char}
    (hc : c ∈ cs) (hlast : cs.getLast? = some '=') (hne : c ≠ '=') :
    c ∈ cs.dropLast := by
  have hcsne : cs ≠ [] := by
    intro h
    rw [h] at hlast
    simp at hlast
  have hdecomp : cs.dropLast ++ [cs.getLast hcsne] = cs := List.dropLast_concat_getLast hcsne
  have hl : cs.getLast hcsne = '=' := by
    have := List.getLast?_eq_getLast cs hcsne
    rw [hlast] at this
    exact (Option.some.inj this).symm
  rw [← hdecomp] at hc
  rcases List.mem_append.mp hc with h | h
  · exact h
  · rw [hl] at h
    simp at h
    exact absurd h hne

theorem mem_stripEq {c : Char} {cs : List Char} (hc : c ∈ cs) (hne : c ≠ '=') :
    c ∈ stripEq cs := by
  unfold stripEq
  by_cases h1 : cs.getLast? = some '='
  · rw [if_pos h1]
    have hc1 : c ∈ cs.dropLast := mem_dropLast_of_ne hc h1 hne
    by_cases h2 : cs.dropLast.getLast? = some '='
    · simp only [h2, if_pos]
      exact mem_dropLast_of_ne hc1 h2 hne
    · simp only [h2, if_neg, ite_false]
      exact hc1
  · rw [if_neg h1]
    exact hc

theorem b64DecodeChunks_none {c : Char} (hidx : b64Index c = none) :
    ∀ {cs : List Char}, c ∈ cs → b64DecodeChunks cs = none := by
  intro cs
  induction cs using b64DecodeChunks.induct with
  | case1 => intro hc; simp at hc
  | case2 d => intro _; rfl
  | case3 c1 c2 =>
    intro hc
    rcases (by simpa using hc : c = c1 ∨ c = c2) with rfl | rfl
    · simp [b64DecodeChunks, hidx]
    · cases h1 : b64Index c1 <;> simp [b64DecodeChunks, h1, hidx]
  | case4 c1 c2 c3 =>
    intro hc
    rcases (by simpa using hc : c = c1 ∨ c = c2 ∨ c = c3) with rfl | rfl | rfl
    · simp [b64DecodeChunks, hidx]
    · cases h1 : b64Index c1 <;> simp [b64DecodeChunks, h1, hidx]
    · cases h1 : b64Index c1 <;> cases h2 : b64Index c2 <;>
        simp [b64DecodeChunks, h1, h2, hidx]
  | case5 c1 c2 c3 c4 rest ih =>
    intro hc
    rcases (by simpa using hc : c = c1 ∨ c = c2 ∨ c = c3 ∨ c = c4 ∨ c ∈ rest)
      with rfl | rfl | rfl | rfl | hmem
    · simp [b64DecodeChunks, hidx]
    · cases h1 : b64Index c1 <;> simp [b64DecodeChunks, h1, hidx]
    · cases h1 : b64Index c1 <;> cases h2 : b64Index c2 <;>
        simp [b64DecodeChunks, h1, h2, hidx]
    · cases h1 : b64Index c1 <;> cases h2 : b64Index c2 <;> cases h3 : b64Index c3 <;>
        simp [b64DecodeChunks, h1, h2, h3, hidx]
    · cases h1 : b64Index c1 <;> cases h2 : b64Index c2 <;> cases h3 : b64Index c3 <;>
        cases h4 : b64Index c4 <;> simp [b64DecodeChunks, h1, h2, h3, h4, ih hmem]

/-- C7 amended: empty input to `base64ToArrayBuffer` does not fail — it
returns an empty byte sequence (the source's guard logs and returns
`new ArrayBuffer(0)`); a non-empty marker-free input containing any
character outside the base64 alphabet, other than padding and ASCII
whitespace, does fail with `FormatError` rather than decoding. -/
theorem claimC7_empty_decode_amended :
    base64ToArrayBuffer ([] : List Char) = some [] ∧
    (∀ (s : List Char) (c : Char), c ∈ s → isAsciiWS c = false →
      b64Index c = none → c ≠ '=' → splitFirst marker s = none →
      base64ToArrayBuffer s = none) := by
  refine ⟨by decide, fun s c hc hws hidx hne hmf => ?_⟩
  have hsne : s ≠ [] := by
    intro h
    rw [h] at hc
    simp at hc
  unfold base64ToArrayBuffer
  rw [if_neg hsne, jsSplit01_none_iff.mpr hmf]
  unfold atobModel
  dsimp only
  have hcf : c ∈ s.filter fun d => !isAsciiWS d := by
    rw [List.mem_filter]
    exact ⟨hc, by rw [hws]; rfl⟩
  by_cases hmod : (s.filter fun d => !isAsciiWS d).length % 4 = 0
  · rw [if_pos hmod]
    have hcs : c ∈ stripEq (s.filter fun d => !isAsciiWS d) := mem_stripEq hcf hne
    split
    · rfl
    · exact b64DecodeChunks_none hidx hcs
  · rw [if_neg hmod]
    split
    · rfl
    · exact b64DecodeChunks_none hidx hcf

theorem claimC7_empty_decode_amended_witness :
    base64ToArrayBuffer ([] : List Char) = some [] ∧
    base64ToArrayBuffer "Q!JD".data = none :=
  ⟨claimC7_empty_decode_amended.1,
    claimC7_empty_decode_amended.2 "Q!JD".data '!' (by decide) (by decide) (by decide)
      (by decide) (by decide)⟩

/-- C8 counterexample: the input carries a payload (`"!!!!"`) that is not
valid base64 — a format failure — together with a key whose hex decode is
not 32 bytes.  The claim requires the format failure to surface before any
cryptographic operation, but `decryptData` runs (and fails at) key import
first: the result is the key-import `CryptoError`, not `FormatError`. -/
theorem claimC8_counterexample :
    atobModel "!!!!".data = none ∧
    decryptData specAEADDec "data:application/octet-stream;base64,!!!!".data "zz".data
      = .error .keyImport ∧
    JsError.keyImport ≠ JsError.invalidBase64 ∧
    isCryptoError .keyImport = true := by decide

/-- C8 amended: in `decryptData`, only the empty-input and blank-payload
checks run before cryptography: a blank payload is rejected regardless of
the key (first conjunct), but once the payload is non-blank, a key
rejected at import produces the key-import `CryptoError` even when the
payload is malformed base64 — the base64 decode only runs once the key
is imported (second conjunct); `encryptData` likewise imports the key before
decoding the payload (third conjunct).  Every failure path returns an
error and no partial output. -/
theorem claimC8_order_amended :
    (∀ (aeadDec : List Nat → List Nat → List Nat → Option (List Nat))
       (enc key : List Char), enc ≠ [] →
       (decryptSplit enc).2.all isJsWS = true →
       decryptData aeadDec enc key = .error .blankPayload) ∧
    (∀ (aeadDec : List Nat → List Nat → List Nat → Option (List Nat))
       (enc key : List Char), enc ≠ [] →
       (decryptSplit enc).2.all isJsWS = false →
       (hexStringToBuffer key).length ≠ 32 →
       decryptData aeadDec enc key = .error .keyImport) ∧
    (∀ (aeadEnc : List Nat → List Nat → List Nat → List Nat)
       (data key : List Char) (iv : List Nat),
       (hexStringToBuffer key).length ≠ 32 →
       encryptData aeadEnc data key iv = .error .keyImport) := by
  refine ⟨fun aeadDec enc key hne hblank => ?_, fun aeadDec enc key hne hblank hkey => ?_,
    fun aeadEnc data key iv hkey => ?_⟩
  · unfold decryptData
    dsimp only
    rw [if_neg hne, hblank, if_pos rfl]
  · unfold decryptData
    dsimp only
    rw [if_neg hne, hblank]
    rw [if_neg (by simp)]
    unfold importKeyOk
    rw [if_neg (by simp [hkey])]
  · unfold encryptData
    dsimp only
    unfold importKeyOk
    rw [if_neg (by simp [hkey])]

theorem claimC8_order_amended_witness :
    decryptData specAEADDec "data:a;base64, ".data "zz".data = .error .blankPayload ∧
    decryptData specAEADDec "data:a;base64,!!!!".data "zz".data = .error .keyImport ∧
    encryptData specAEADEnc "QUJD".data "zz".data testIV = .error .keyImport :=
  ⟨claimC8_order_amended.1 specAEADDec "data:a;base64, ".data "zz".data
      (by decide) (by decide),
   claimC8_order_amended.2.1 specAEADDec "data:a;base64,!!!!".data "zz".data
      (by decide) (by decide) (by decide),
   claimC8_order_amended.2.2 specAEADEnc "QUJD".data "zz".data testIV (by decide)⟩

/-- C9 counterexample: on an input containing two `"base64,"` markers the
payload returned by the split is only the text between the first and
second marker — `"b"` — not the entire remainder `"bbase64,c"` the claim
requires; the text after the second marker is dropped. -/
theorem claimC9_counterexample :
    (splitDataUrl "abase64,bbase64,c".data).2 = "b".data ∧
    (splitDataUrl "abase64,bbase64,c".data).2 ≠ "bbase64,c".data := by decide

/-- C9 amended: if the input contains no marker, the prefix is empty and
the payload is the whole input; if the input is `p0 ++ "base64," ++ pl`
with a single marker, the prefix is everything up to and including that
marker and the payload is the entire remainder; but when a second marker
occurs, the payload is only the text strictly between the first and
second markers and everything from the second marker on is dropped. -/
theorem claimC9_splitDataUrl_amended :
    (∀ s : List Char, splitFirst marker s = none → splitDataUrl s = ([], s)) ∧
    (∀ p0 pl : List Char, splitFirst marker p0 = none →
      splitFirst marker pl = none →
      splitDataUrl (p0 ++ marker ++ pl) = (p0 ++ marker, pl)) ∧
    (∀ p0 mid tail : List Char, splitFirst marker p0 = none →
      splitFirst marker mid = none →
      splitDataUrl (p0 ++ marker ++ (mid ++ marker ++ tail))
        = (p0 ++ marker, mid)) := by
  refine ⟨fun s h => splitDataUrl_no_marker h,
    fun p0 pl h1 h2 => splitDataUrl_of_parts h1 h2,
    fun p0 mid tail h1 h2 => ?_⟩
  unfold splitDataUrl
  rw [jsSplit01_two h1 h2]

theorem claimC9_splitDataUrl_amended_witness :
    splitDataUrl "QUJD".data = ([], "QUJD".data) ∧
    splitDataUrl ("data:image/png;".data ++ marker ++ "QUJD".data)
      = ("data:image/png;".data ++ marker, "QUJD".data) ∧
    splitDataUrl ("a".data ++ marker ++ ("b".data ++ marker ++ "c".data))
      = ("a".data ++ marker, "b".data) :=
  ⟨claimC9_splitDataUrl_amended.1 "QUJD".data (by decide),
   claimC9_splitDataUrl_amended.2.1 "data:image/png;".data "QUJD".data
      (by decide) (by decide),
   claimC9_splitDataUrl_amended.2.2 "a".data "b".data "c".data (by decide) (by decide)⟩

theorem lowerHex_facts {c : Char} (h : isLowerHexDigit c = true) :
    isHexDigit c = true ∧ notLineTerm c = true ∧ isJsWS c = false ∧
    c ≠ '-' ∧ c ≠ '+' ∧ c ≠ 'x' ∧ c ≠ 'X' := by
  unfold isLowerHexDigit at h
  simp only [Bool.or_eq_true, Bool.and_eq_true, decide_eq_true_eq] at h
  have hr : (48 ≤ c.toNat ∧ c.toNat ≤ 57) ∨ (97 ≤ c.toNat ∧ c.toNat ≤ 102) := h
  refine ⟨?_, ?_, ?_, ?_, ?_, ?_, ?_⟩
  · unfold isHexDigit
    simp only [Bool.or_eq_true, Bool.and_eq_true, decide_eq_true_eq]
    omega
  · unfold notLineTerm
    simp only [Bool.not_eq_true', Bool.or_eq_false_iff, decide_eq_false_iff_not]
    omega
  · unfold isJsWS isAsciiWS
    simp only [Bool.or_eq_false_iff, Bool.and_eq_false_iff, decide_eq_false_iff_not]
    omega
  · intro he
    have := congrArg Char.toNat he
    simp only [show '-'.toNat = 45 from rfl] at this
    omega
  · intro he
    have := congrArg Char.toNat he
    simp only [show '+'.toNat = 43 from rfl] at this
    omega
  · intro he
    have := congrArg Char.toNat he
    simp only [show 'x'.toNat = 120 from rfl] at this
    omega
  · intro he
    have := congrArg Char.toNat he
    simp only [show 'X'.toNat = 88 from rfl] at this
    omega

theorem parseHex_pair {c1 c2 : Char} (h1 : isLowerHexDigit c1 = true)
    (h2 : isLowerHexDigit c2 = true) :
    toUint8 (jsParseIntHex [c1, c2]) = hexVal c1 * 16 + hexVal c2 := by
  obtain ⟨hx1, -, hws1, hm1, hp1, -, -⟩ := lowerHex_facts h1
  obtain ⟨hx2, -, -, -, -, hxc2, hXc2⟩ := lowerHex_facts h2
  have hdw : List.dropWhile isJsWS [c1, c2] = [c1, c2] := by
    rw [List.dropWhile_cons, hws1]
    simp
  unfold jsParseIntHex
  rw [hdw]
  have hcore : parseIntCore [c1, c2] = some (hexVal c1 * 16 + hexVal c2) := by
    unfold parseIntCore
    have hds : hexDigitsPre [c1, c2] = [c1, c2] := by
      rw [hexDigitsPre, if_pos hx1, hexDigitsPre, if_pos hx2]
      rfl
    have hcs2 : (match [c1, c2] with
        | '0' :: x :: rest => if x = 'x' || x = 'X' then rest else [c1, c2]
        | _ => [c1, c2]) = [c1, c2] := by
      split
      · rename_i x rest heq
        rw [if_neg (by
          simp only [Bool.or_eq_true, decide_eq_true_eq]
          have hxeq : x = c2 := by
            have := heq
            simp only [List.cons.injEq] at this
            exact this.2.1.symm
          rw [hxeq]
          push_neg
          exact ⟨hxc2, hXc2⟩)]
      · rfl
    dsimp only
    rw [hcs2, hds]
    dsimp only
    simp only [List.foldl_cons, List.foldl_nil, Option.some.injEq]
    omega
  split
  · rename_i rest heq
    exact absurd (by simp only [List.cons.injEq] at heq; exact heq.1) hm1
  · rename_i rest heq
    exact absurd (by simp only [List.cons.injEq] at heq; exact heq.1) hp1
  · rw [hcore]
    simp only [Option.bind_eq_bind, Option.some_bind, Option.pure_def, Option.map_some']
    unfold toUint8
    dsimp only
    have hlt : hexVal c1 * 16 + hexVal c2 < 256 := by
      have := hexVal_lt c1
      have := hexVal_lt c2
      omega
    omega

theorem imageKeyParse_eq_hex : ∀ {s : List Char},
    (∀ c ∈ s, isLowerHexDigit c = true) → s.length % 2 = 0 →
    imageKeyParse s = hexStringToBuffer s := by
  intro s
  induction s using hexPairs.induct with
  | case1 => intro _ _; rfl
  | case2 c => intro _ h; simp at h
  | case3 c1 c2 rest hcond ih =>
    intro hall heven
    have h1 := hall c1 (by simp)
    have h2 := hall c2 (by simp)
    have hn1 := (lowerHex_facts h1).2.1
    have hn2 := (lowerHex_facts h2).2.1
    have hhp : hexPairs (c1 :: c2 :: rest) = (c1, c2) :: hexPairs rest := by
      simp only [hexPairs]
      rw [if_pos hcond]
    have hch : chunks12 (c1 :: c2 :: rest) = [c1, c2] :: chunks12 rest := by
      simp only [chunks12]
      rw [if_pos hn1, if_pos hn2]
    have htl := ih (fun c hc => hall c (by simp [hc])) (by simp at heven ⊢; omega)
    unfold imageKeyParse hexStringToBuffer at htl ⊢
    rw [hhp, hch, List.map_cons, List.map_cons, parseHex_pair h1 h2, htl]
  | case4 c1 c2 rest hcond ih =>
    intro hall heven
    exact absurd (by
      rw [Bool.and_eq_true]
      exact ⟨(lowerHex_facts (hall c1 (by simp))).1,
        (lowerHex_facts (hall c2 (by simp))).1⟩) hcond

theorem base64ToArrayBuffer_eq_atob {pl : List Char}
    (h : splitFirst marker pl = none) : base64ToArrayBuffer pl = atobModel pl := by
  unfold base64ToArrayBuffer
  by_cases hpl : pl = []
  · subst hpl
    rw [if_pos rfl]
    decide
  · rw [if_neg hpl, jsSplit01_none_iff.mpr h]

/-- C10: the two modules implement the same cipher wrapper.  For every
64-character lowercase-hex key: `encryptImage` agrees with `encryptData`
on every input and entropy draw, and `decryptImage` agrees with
`decryptData` on every input that contains the `"base64,"` marker (on
marker-less input the two differ only in the prefix `decryptData`
synthesizes), for any choice of the shared external AEAD primitive. -/
theorem claimC10_module_equivalence
    (aeadEnc : List Nat → List Nat → List Nat → List Nat)
    (aeadDec : List Nat → List Nat → List Nat → Option (List Nat))
    (key : List Char) (hkey64 : key.length = 64)
    (hkeyhex : ∀ c ∈ key, isLowerHexDigit c = true) :
    (∀ (data : List Char) (iv : List Nat),
      encryptImage aeadEnc data key iv = encryptData aeadEnc data key iv) ∧
    (∀ (enc p pl : List Char), jsSplit01 enc = some (p, pl) →
      decryptImage aeadDec enc key = decryptData aeadDec enc key) := by
  have hkp : imageKeyParse key = hexStringToBuffer key :=
    imageKeyParse_eq_hex hkeyhex (by rw [hkey64])
  constructor
  · intro data iv
    unfold encryptImage encryptData
    dsimp only
    rw [hkp, base64ToArrayBuffer_eq_atob (splitDataUrl_payload_no_marker data)]
  · intro enc p pl hsplit
    unfold decryptImage decryptData
    dsimp only
    rw [splitDataUrl_eq_decryptSplit hsplit, hkp,
      base64ToArrayBuffer_eq_atob (decryptSplit_payload_no_marker enc)]

set_option maxRecDepth 8192 in
theorem claimC10_module_equivalence_witness :
    encryptImage specAEADEnc "data:image/png;base64,QUJD".data testKey testIV
      = encryptData specAEADEnc "data:image/png;base64,QUJD".data testKey testIV ∧
    decryptImage specAEADDec "data:image/png;base64,QUJD".data testKey
      = decryptData specAEADDec "data:image/png;base64,QUJD".data testKey := by
  have h := claimC10_module_equivalence specAEADEnc specAEADDec testKey
    (by decide) (by decide)
  exact ⟨h.1 "data:image/png;base64,QUJD".data testIV,
    h.2 "data:image/png;base64,QUJD".data "data:image/png;".data "QUJD".data (by decide)⟩
